import Mathlib

/-!
Verification of the instance-based learning core of the `ml-nearest-neighbor`
repository: the heterogeneous distance metric, dataset operations
(normalization, conversion, partitioning, cross-validation folds, sampling)
and the edited k-NN training-set reduction.

Rows hold either numeric values or string values.  Numeric row values are
modelled with exact integer arithmetic (the example datasets are
integer-valued, and the distance and fold theorems are algebraic in the
numeric payload); z-score normalization, which intrinsically produces
non-integer values, is modelled over the reals.  The square root in the
distance metric and in z-score normalization is modelled with `Real.sqrt`
applied on top of the sums computed by the code.
-/

namespace MLNN

/-- A field value in a data row: numeric (modelled with exact integer
arithmetic) or a string. -/
inductive Value where
  | num (x : ℤ)
  | str (s : String)
deriving DecidableEq, Repr

/-- A data row, as in the Python code: a list of field values. -/
abbrev Row := List Value

/-- Whether a value is a string, as tested by `isinstance(..., str)`. -/
def Value.isStr : Value → Bool
  | .str _ => true
  | .num _ => false

/-- Numeric payload of a value (0 for strings; the numeric branches of the
code are only reached on numeric values). -/
def Value.toNum : Value → ℤ
  | .num x => x
  | .str _ => 0

/-- Python `==` on field values: values of different types compare unequal. -/
def Value.pyEq : Value → Value → Bool
  | .num x, .num y => x == y
  | .str s, .str t => s == t
  | .num _, .str _ => false
  | .str _, .num _ => false

/-- Python `==` agrees with propositional equality on `Value`. -/
theorem Value.pyEq_iff (a b : Value) : a.pyEq b = true ↔ a = b := by
  cases a <;> cases b <;> simp [Value.pyEq]

/-- Python `==` on field values is symmetric. -/
theorem Value.pyEq_comm (a b : Value) : a.pyEq b = b.pyEq a := by
  by_cases h : a = b
  · rw [h]
  · have h1 : a.pyEq b = false := by
      cases hb : a.pyEq b
      · rfl
      · exact absurd ((Value.pyEq_iff a b).mp hb) h
    have h2 : b.pyEq a = false := by
      cases hb : b.pyEq a
      · rfl
      · exact absurd ((Value.pyEq_iff b a).mp hb).symm h
    rw [h1, h2]

/-- The `DataSet` class: a 2D list of rows plus the class column index and
the attribute column indices (`data_set.py`, `DataSet.__init__`). -/
structure DataSet where
  data : List Row
  class_col : ℕ
  attr_cols : List ℕ

/-- `DataSet.get_str_attr_cols`: attribute columns whose value in the first
row is a string. -/
def DataSet.get_str_attr_cols (d : DataSet) : List ℕ :=
  d.attr_cols.filter (fun c => ((d.data.headD []).getD c (.num 0)).isStr)

/-- The sum accumulated by `DataSet.distance` before the square root:
indicator for string attribute columns, squared difference otherwise. -/
def DataSet.sumSqDist (d : DataSet) (a b : Row) : ℤ :=
  d.attr_cols.foldl (fun sum c =>
    if c ∈ d.get_str_attr_cols then
      sum + (if (a.getD c (.num 0)).pyEq (b.getD c (.num 0)) then 0 else 1)
    else
      sum + ((a.getD c (.num 0)).toNum - (b.getD c (.num 0)).toNum) ^ 2) 0

/-- `DataSet.distance`: square root of the accumulated sum. -/
noncomputable def DataSet.distance (d : DataSet) (a b : Row) : ℝ :=
  Real.sqrt (d.sumSqDist a b)

/-- Per-column disagreement used by the distance function. -/
def DataSet.colDisagreement (d : DataSet) (a b : Row) (c : ℕ) : ℤ :=
  if c ∈ d.get_str_attr_cols then
    (if (a.getD c (.num 0)).pyEq (b.getD c (.num 0)) then 0 else 1)
  else
    ((a.getD c (.num 0)).toNum - (b.getD c (.num 0)).toNum) ^ 2

/-- A row matches a dataset's observed schema when every attribute column
classified as a string column holds a string and every other attribute
column holds a number. -/
def DataSet.rowMatchesSchema (d : DataSet) (r : Row) : Prop :=
  ∀ c ∈ d.attr_cols,
    (c ∈ d.get_str_attr_cols → (r.getD c (.num 0)).isStr = true) ∧
    (c ∉ d.get_str_attr_cols → (r.getD c (.num 0)).isStr = false)

instance (d : DataSet) (r : Row) : Decidable (d.rowMatchesSchema r) := by
  unfold DataSet.rowMatchesSchema
  infer_instance

theorem foldl_add_eq_sum {α : Type} (f : α → ℤ) (l : List α) (s : ℤ) :
    l.foldl (fun acc x => acc + f x) s = s + (l.map f).sum := by
  induction l generalizing s with
  | nil => simp
  | cons a t ih => simp [ih]; ring

/-- The accumulated distance sum is the sum over attribute columns of the
per-column disagreements. -/
theorem sumSqDist_eq_sum (d : DataSet) (a b : Row) :
    d.sumSqDist a b = (d.attr_cols.map (d.colDisagreement a b)).sum := by
  unfold DataSet.sumSqDist
  rw [show (fun (sum : ℤ) (c : ℕ) =>
      if c ∈ d.get_str_attr_cols then
        sum + (if (a.getD c (.num 0)).pyEq (b.getD c (.num 0)) then 0 else 1)
      else
        sum + ((a.getD c (.num 0)).toNum - (b.getD c (.num 0)).toNum) ^ 2) =
      (fun (sum : ℤ) (c : ℕ) => sum + d.colDisagreement a b c) from ?_]
  · rw [foldl_add_eq_sum, zero_add]
  · funext s c
    unfold DataSet.colDisagreement
    by_cases h : c ∈ d.get_str_attr_cols <;> simp [h]

/-- C1: for rows matching the dataset's schema, the distance is the square
root of the sum, over all attribute columns, of the per-attribute
disagreement: an indicator (1 if the two values are unequal, else 0) for
categorical (string) columns, and the squared numeric difference for
numeric columns. -/
theorem distance_eq_sqrt_sum_disagreement (d : DataSet) (a b : Row)
    (hd : d.data ≠ []) (ha : d.rowMatchesSchema a) (hb : d.rowMatchesSchema b) :
    d.distance a b = Real.sqrt (((d.attr_cols.map (fun c =>
      if c ∈ d.get_str_attr_cols then
        (if a.getD c (.num 0) = b.getD c (.num 0) then (0 : ℤ) else 1)
      else
        ((a.getD c (.num 0)).toNum - (b.getD c (.num 0)).toNum) ^ 2)).sum : ℤ)) := by
  unfold DataSet.distance
  rw [sumSqDist_eq_sum]
  refine congrArg Real.sqrt (congrArg Int.cast (congrArg List.sum
    (List.map_congr_left (fun c _ => ?_))))
  unfold DataSet.colDisagreement
  by_cases h : c ∈ d.get_str_attr_cols <;> simp [h, Value.pyEq_iff]

/-- Witness for C1 on a concrete two-column dataset with one categorical
and one numeric attribute. -/
theorem distance_eq_sqrt_sum_disagreement_witness :
    (⟨[[Value.str "x", Value.num 2]], 2, [0, 1]⟩ : DataSet).distance
        [Value.str "x", Value.num 2] [Value.str "y", Value.num 5]
      = Real.sqrt ((((⟨[[Value.str "x", Value.num 2]], 2, [0, 1]⟩ :
            DataSet).attr_cols.map (fun c =>
        if c ∈ (⟨[[Value.str "x", Value.num 2]], 2, [0, 1]⟩ :
            DataSet).get_str_attr_cols then
          (if ([Value.str "x", Value.num 2] : Row).getD c (.num 0) =
              ([Value.str "y", Value.num 5] : Row).getD c (.num 0)
           then (0 : ℤ) else 1)
        else
          ((([Value.str "x", Value.num 2] : Row).getD c (.num 0)).toNum -
            (([Value.str "y", Value.num 5] : Row).getD c (.num 0)).toNum) ^ 2)).sum : ℤ)) :=
  distance_eq_sqrt_sum_disagreement _ _ _ (by decide) (by decide) (by decide)

/-- Each per-column disagreement of a row with itself is zero. -/
theorem colDisagreement_self (d : DataSet) (a : Row) (c : ℕ) :
    d.colDisagreement a a c = 0 := by
  unfold DataSet.colDisagreement
  by_cases h : c ∈ d.get_str_attr_cols <;> simp [h, Value.pyEq_iff]

/-- The per-column disagreement is symmetric in the two rows. -/
theorem colDisagreement_comm (d : DataSet) (a b : Row) (c : ℕ) :
    d.colDisagreement a b c = d.colDisagreement b a c := by
  unfold DataSet.colDisagreement
  by_cases h : c ∈ d.get_str_attr_cols
  · rw [if_pos h, if_pos h, Value.pyEq_comm]
  · rw [if_neg h, if_neg h]; ring

/-- C7: distance of a schema-conforming row to itself is zero, and distance
is symmetric for rows sharing the dataset's schema. -/
theorem distance_self_zero_and_symm (d : DataSet) (hd : d.data ≠ []) :
    (∀ a : Row, d.rowMatchesSchema a → d.distance a a = 0) ∧
    (∀ a b : Row, d.rowMatchesSchema a → d.rowMatchesSchema b →
      d.distance a b = d.distance b a) := by
  constructor
  · intro a _
    unfold DataSet.distance
    rw [sumSqDist_eq_sum]
    have : (d.attr_cols.map (d.colDisagreement a a)).sum = 0 := by
      rw [List.map_congr_left (fun c _ => colDisagreement_self d a c)]
      simp
    rw [this]
    simp [Real.sqrt_zero]
  · intro a b _ _
    unfold DataSet.distance
    rw [sumSqDist_eq_sum, sumSqDist_eq_sum,
      List.map_congr_left (fun c _ => colDisagreement_comm d a b c)]

/-- Witness for C7 on a concrete dataset and concrete rows. -/
theorem distance_self_zero_and_symm_witness :
    (⟨[[Value.str "x", Value.num 2]], 2, [0, 1]⟩ : DataSet).distance
        [Value.str "x", Value.num 2] [Value.str "x", Value.num 2] = 0 ∧
    (⟨[[Value.str "x", Value.num 2]], 2, [0, 1]⟩ : DataSet).distance
        [Value.str "x", Value.num 2] [Value.str "y", Value.num 5]
      = (⟨[[Value.str "x", Value.num 2]], 2, [0, 1]⟩ : DataSet).distance
        [Value.str "y", Value.num 5] [Value.str "x", Value.num 2] :=
  ⟨(distance_self_zero_and_symm _ (by decide)).1 _ (by decide),
   (distance_self_zero_and_symm _ (by decide)).2 _ _ (by decide) (by decide)⟩

/-! ### Cross-validation folds (`DataSet.validation_folds`) -/

/-- Python slice `l[a:b]` for non-negative bounds. -/
def pySlice {α : Type} (l : List α) (a b : ℕ) : List α := (l.drop a).take (b - a)

/-- Section boundary used by `validation_folds`: `floor(avg_size * i)` with
`avg_size = len / n`, i.e. `len * i / n` in exact arithmetic. -/
def sectionBound (len n i : ℕ) : ℕ := len * i / n

/-- The `n` contiguous sections built by `DataSet.validation_folds`: section
`i < n-1` is `data[floor(avg*i) : floor(avg*(i+1))]` and the final section
runs to the end of the data. -/
def validationSections {α : Type} (l : List α) (n : ℕ) : List (List α) :=
  (List.range n).map (fun i =>
    if i = n - 1 then l.drop (sectionBound l.length n i)
    else pySlice l (sectionBound l.length n i) (sectionBound l.length n (i + 1)))

/-- One cross-validation fold: a train list and a test list. -/
structure Fold (α : Type) where
  train : List α
  test : List α
deriving Repr, DecidableEq

/-- The fold list built by `DataSet.validation_folds` over a row list: fold
`i`'s test set is section `i` and its train set concatenates the other
sections in order. -/
def validationFolds {α : Type} (l : List α) (n : ℕ) : List (Fold α) :=
  (List.range n).map (fun i =>
    { test := (validationSections l n).getD i []
      train := ((List.range n).map (fun j =>
        if i = j then [] else (validationSections l n).getD j [])).flatten })

/-- `DataSet.validation_folds`: each fold's train/test row lists are wrapped
into DataSets carrying the same class and attribute columns. -/
def DataSet.validation_folds (d : DataSet) (n : ℕ) : List (DataSet × DataSet) :=
  (validationFolds d.data n).map (fun f =>
    (⟨f.train, d.class_col, d.attr_cols⟩, ⟨f.test, d.class_col, d.attr_cols⟩))

theorem sectionBound_mono (len n i : ℕ) :
    sectionBound len n i ≤ sectionBound len n (i + 1) :=
  Nat.div_le_div_right (Nat.mul_le_mul_left len (Nat.le_succ i))

theorem sectionBound_le (len n i : ℕ) (hn : 1 ≤ n) (hi : i ≤ n) :
    sectionBound len n i ≤ len := by
  unfold sectionBound
  calc len * i / n ≤ len * n / n := Nat.div_le_div_right (Nat.mul_le_mul_left len hi)
    _ = len := Nat.mul_div_cancel len hn

theorem pySlice_append_drop {α : Type} (l : List α) (a b : ℕ) (h : a ≤ b) :
    pySlice l a b ++ l.drop b = l.drop a := by
  unfold pySlice
  rw [show l.drop b = (l.drop a).drop (b - a) by
    rw [List.drop_drop, Nat.add_sub_cancel' h]]
  exact List.take_append_drop _ _

theorem flatten_slices {α : Type} (l : List α) (bnd : ℕ → ℕ)
    (hmono : ∀ i, bnd i ≤ bnd (i + 1)) :
    ∀ (cnt m : ℕ),
      ((List.range' m cnt).map (fun i => pySlice l (bnd i) (bnd (i + 1)))).flatten
        ++ l.drop (bnd (m + cnt)) = l.drop (bnd m) := by
  intro cnt
  induction cnt with
  | zero => intro m; simp
  | succ k ih =>
    intro m
    rw [List.range'_succ]
    simp only [List.map_cons, List.flatten_cons, List.append_assoc]
    rw [show m + (k + 1) = (m + 1) + k from by omega, ih (m + 1)]
    exact pySlice_append_drop l _ _ (hmono m)

theorem validationSections_length {α : Type} (l : List α) (n : ℕ) :
    (validationSections l n).length = n := by
  simp [validationSections]

/-- Concatenating the `n` sections in order recovers the original row list. -/
theorem validationSections_flatten {α : Type} (l : List α) (n : ℕ) (hn : 1 ≤ n) :
    (validationSections l n).flatten = l := by
  obtain ⟨k, rfl⟩ : ∃ k, n = k + 1 := ⟨n - 1, (Nat.succ_pred_eq_of_pos hn).symm⟩
  unfold validationSections
  rw [List.range_succ, List.map_append, List.flatten_append]
  have hlast : (List.map (fun i =>
      if i = k + 1 - 1 then l.drop (sectionBound l.length (k + 1) i)
      else pySlice l (sectionBound l.length (k + 1) i)
        (sectionBound l.length (k + 1) (i + 1))) [k]).flatten
      = l.drop (sectionBound l.length (k + 1) k) := by
    simp
  rw [hlast]
  have hmain : List.map (fun i =>
      if i = k + 1 - 1 then l.drop (sectionBound l.length (k + 1) i)
      else pySlice l (sectionBound l.length (k + 1) i)
        (sectionBound l.length (k + 1) (i + 1))) (List.range k)
      = List.map (fun i => pySlice l (sectionBound l.length (k + 1) i)
          (sectionBound l.length (k + 1) (i + 1))) (List.range k) := by
    apply List.map_congr_left
    intro i hi
    rw [if_neg (by rw [List.mem_range] at hi; omega)]
  rw [hmain, List.range_eq_range']
  have hres := flatten_slices l (sectionBound l.length (k + 1))
    (fun i => sectionBound_mono l.length (k + 1) i) k 0
  rw [Nat.zero_add] at hres
  rw [show sectionBound l.length (k + 1) 0 = 0 by simp [sectionBound],
    List.drop_zero] at hres
  exact hres

theorem validationSections_getD {α : Type} (l : List α) (n i : ℕ) (hi : i < n) :
    (validationSections l n).getD i [] =
      if i = n - 1 then l.drop (sectionBound l.length n i)
      else pySlice l (sectionBound l.length n i) (sectionBound l.length n (i + 1)) := by
  unfold validationSections
  rw [List.getD_eq_getElem _ _ (by simpa using hi), List.getElem_map, List.getElem_range]

theorem map_getD_range {α : Type} (L : List α) (y : α) (n : ℕ) (hlen : L.length = n) :
    (List.range n).map (fun i => L.getD i y) = L := by
  subst hlen
  apply List.ext_getElem
  · simp
  · intro j h1 h2
    rw [List.getElem_map, List.getElem_range, List.getD_eq_getElem _ _ h2]

theorem map_ite_eq_set_nil {α : Type} (secs : List (List α)) (n i : ℕ)
    (hlen : secs.length = n) (hi : i < n) :
    (List.range n).map (fun j => if i = j then [] else secs.getD j [])
      = secs.set i [] := by
  subst hlen
  apply List.ext_getElem
  · simp
  · intro j h1 h2
    rw [List.getElem_map, List.getElem_range, List.getElem_set]
    by_cases h : i = j
    · simp [h]
    · rw [if_neg h, if_neg h,
        List.getD_eq_getElem _ _ (by simpa using h2)]

theorem set_nil_flatten_append_perm {α : Type} :
    ∀ (L : List (List α)) (i : ℕ), i < L.length →
      ((L.set i []).flatten ++ L.getD i []).Perm L.flatten := by
  intro L
  induction L with
  | nil => intro i hi; simp at hi
  | cons x t ih =>
    intro i hi
    cases i with
    | zero =>
      show List.Perm ((([] : List α) :: t).flatten ++ x) ((x :: t).flatten)
      simp only [List.flatten_cons, List.nil_append]
      exact List.perm_append_comm
    | succ j =>
      show List.Perm ((x :: t.set j []).flatten ++ t.getD j []) ((x :: t).flatten)
      simp only [List.flatten_cons, List.append_assoc]
      exact (ih j (by simpa using hi)).append_left x

/-- Every fold's train and test lists together are a permutation of the
original row list. -/
theorem validationFolds_perm {α : Type} (l : List α) (n : ℕ) (hn : 1 ≤ n) :
    ∀ fd ∈ validationFolds l n, (fd.train ++ fd.test).Perm l := by
  intro fd hfd
  unfold validationFolds at hfd
  simp only [List.mem_map, List.mem_range] at hfd
  obtain ⟨i, hi, rfl⟩ := hfd
  dsimp only
  rw [map_ite_eq_set_nil (validationSections l n) n i (validationSections_length l n) hi]
  have hperm := set_nil_flatten_append_perm (validationSections l n) i
    (by rw [validationSections_length]; exact hi)
  rw [validationSections_flatten l n hn] at hperm
  exact hperm

theorem validation_folds_length (d : DataSet) (n : ℕ) :
    (d.validation_folds n).length = n := by
  simp [DataSet.validation_folds, validationFolds]

theorem mem_validation_folds (d : DataSet) (n : ℕ) (fd : DataSet × DataSet)
    (h : fd ∈ d.validation_folds n) :
    ∃ f ∈ validationFolds d.data n, fd.1.data = f.train ∧ fd.2.data = f.test := by
  unfold DataSet.validation_folds at h
  simp only [List.mem_map] at h
  obtain ⟨f, hf, rfl⟩ := h
  exact ⟨f, hf, rfl, rfl⟩

/-- C3: summed over all folds, train size plus test size is `n` times the
row count, and each fold's train and test rows together form exactly the
original row multiset. -/
theorem validation_folds_counts_and_multiset (d : DataSet) (n : ℕ) (hn : 1 ≤ n) :
    (((d.validation_folds n).map (fun fd => fd.1.data.length + fd.2.data.length)).sum
        = n * d.data.length) ∧
    (∀ fd ∈ d.validation_folds n,
      (fd.1.data : Multiset Row) + (fd.2.data : Multiset Row)
        = (d.data : Multiset Row)) := by
  have hkey : ∀ fd ∈ d.validation_folds n,
      (fd.1.data ++ fd.2.data).Perm d.data := by
    intro fd h
    obtain ⟨f, hf, h1, h2⟩ := mem_validation_folds d n fd h
    rw [h1, h2]
    exact validationFolds_perm d.data n hn f hf
  constructor
  · have hconst : ((d.validation_folds n).map
        (fun fd => fd.1.data.length + fd.2.data.length))
        = List.replicate n d.data.length := by
      apply List.eq_replicate_iff.mpr
      refine ⟨?_, ?_⟩
      · rw [List.length_map, validation_folds_length]
      · intro b hb
        rw [List.mem_map] at hb
        obtain ⟨fd, hfd, rfl⟩ := hb
        have hlen := (hkey fd hfd).length_eq
        rw [List.length_append] at hlen
        exact hlen
    rw [hconst, List.sum_replicate, smul_eq_mul]
  · intro fd h
    rw [Multiset.coe_add, Multiset.coe_eq_coe]
    exact hkey fd h

/-- A concrete three-row, one-column dataset used as a witness input. -/
def exD3 : DataSet := ⟨[[Value.num 0], [Value.num 1], [Value.num 2]], 0, [0]⟩

/-- A concrete ten-row, one-column dataset used as a witness input. -/
def exD10 : DataSet := ⟨(List.range 10).map (fun i => [Value.num i]), 0, [0]⟩

/-- Witness for C3 on a concrete three-row dataset with two folds. -/
theorem validation_folds_counts_and_multiset_witness :
    (((exD3.validation_folds 2).map
        (fun fd => fd.1.data.length + fd.2.data.length)).sum
        = 2 * exD3.data.length) ∧
    (∀ fd ∈ exD3.validation_folds 2,
      (fd.1.data : Multiset Row) + (fd.2.data : Multiset Row)
        = (exD3.data : Multiset Row)) :=
  validation_folds_counts_and_multiset exD3 2 (by decide)

/-- C2 fails on the code: on a ten-row dataset with four folds the test
sections have sizes `[2, 3, 2, 3]`, not `[2, 2, 2, 4]` — section 1 has 3
rows rather than `floor(10/4) = 2`. -/
theorem validation_folds_test_sizes_counterexample :
    ((exD10.validation_folds 4).map (fun fd => fd.2.data.length)) = [2, 3, 2, 3] ∧
    ((exD10.validation_folds 4).map (fun fd => fd.2.data.length)) ≠ [2, 2, 2, 4] := by
  have h : ((exD10.validation_folds 4).map (fun fd => fd.2.data.length))
      = [2, 3, 2, 3] := by rfl
  exact ⟨h, by rw [h]; decide⟩

theorem validation_folds_tests (d : DataSet) (n : ℕ) :
    (d.validation_folds n).map (fun fd => fd.2.data) = validationSections d.data n := by
  unfold DataSet.validation_folds validationFolds
  rw [List.map_map, List.map_map]
  exact map_getD_range (validationSections d.data n) [] n
    (validationSections_length d.data n)

/-- C2 (amended): the test-section boundaries are `floor(len * i / n)`, so
section `i ≤ n-2` has `floor(len*(i+1)/n) - floor(len*i/n)` rows, the last
section absorbs the remainder, and concatenating all test sections in order
recovers the original rows (each row lies in exactly one test section).  On
ten rows with four folds the sizes are `[2, 3, 2, 3]`. -/
theorem validation_folds_section_sizes (d : DataSet) (n : ℕ) (hn : 1 ≤ n) :
    (∀ i, i + 1 < n →
      ((d.validation_folds n).map (fun fd => fd.2.data.length)).getD i 0
        = sectionBound d.data.length n (i + 1) - sectionBound d.data.length n i) ∧
    (((d.validation_folds n).map (fun fd => fd.2.data.length)).getD (n - 1) 0
        = d.data.length - sectionBound d.data.length n (n - 1)) ∧
    ((d.validation_folds n).map (fun fd => fd.2.data)).flatten = d.data := by
  have hmap : (d.validation_folds n).map (fun fd => fd.2.data.length)
      = (validationSections d.data n).map List.length := by
    rw [← validation_folds_tests d n, List.map_map]
    rfl
  have hgetD : ∀ i, i < n →
      ((validationSections d.data n).map List.length).getD i 0
        = ((validationSections d.data n).getD i []).length := by
    intro i hi
    rw [List.getD_eq_getElem _ _ (by
        rw [List.length_map, validationSections_length]; exact hi),
      List.getElem_map,
      List.getD_eq_getElem _ _ (by rw [validationSections_length]; exact hi)]
  refine ⟨?_, ?_, ?_⟩
  · intro i hi
    rw [hmap, hgetD i (by omega),
      validationSections_getD d.data n i (by omega),
      if_neg (by omega)]
    unfold pySlice
    rw [List.length_take, List.length_drop]
    have hb1 : sectionBound d.data.length n (i + 1) ≤ d.data.length :=
      sectionBound_le d.data.length n (i + 1) hn (by omega)
    have hb2 : sectionBound d.data.length n i ≤ sectionBound d.data.length n (i + 1) :=
      sectionBound_mono d.data.length n i
    omega
  · rw [hmap, hgetD (n - 1) (by omega),
      validationSections_getD d.data n (n - 1) (by omega), if_pos rfl,
      List.length_drop]
  · rw [validation_folds_tests d n]
    exact validationSections_flatten d.data n hn

/-- Witness for the amended C2 on the concrete ten-row dataset with four
folds. -/
theorem validation_folds_section_sizes_witness :
    (∀ i, i + 1 < 4 →
      ((exD10.validation_folds 4).map (fun fd => fd.2.data.length)).getD i 0
        = sectionBound exD10.data.length 4 (i + 1) - sectionBound exD10.data.length 4 i) ∧
    (((exD10.validation_folds 4).map (fun fd => fd.2.data.length)).getD (4 - 1) 0
        = exD10.data.length - sectionBound exD10.data.length 4 (4 - 1)) ∧
    ((exD10.validation_folds 4).map (fun fd => fd.2.data)).flatten = exD10.data :=
  validation_folds_section_sizes exD10 4 (by decide)

/-! ### Partition (`DataSet.partition`) -/

/-- `DataSet.partition`: split the rows at `floor(first_percentage * len)`
into a leading and a trailing DataSet. -/
def DataSet.partition (d : DataSet) (first_percentage : ℚ) : DataSet × DataSet :=
  (⟨d.data.take ⌊first_percentage * d.data.length⌋₊, d.class_col, d.attr_cols⟩,
   ⟨d.data.drop ⌊first_percentage * d.data.length⌋₊, d.class_col, d.attr_cols⟩)

/-- C6: for a fraction in `[0,1]`, `partition` splits the row sequence at
index `floor(f * row_count)` into two order-preserving pieces whose
concatenation is the original row list and whose lengths sum to the
original row count. -/
theorem partition_spec (d : DataSet) (f : ℚ) (h0 : 0 ≤ f) (h1 : f ≤ 1) :
    (d.partition f).1.data ++ (d.partition f).2.data = d.data ∧
    (d.partition f).1.data.length = ⌊f * (d.data.length : ℚ)⌋₊ ∧
    (d.partition f).1.data.length + (d.partition f).2.data.length
      = d.data.length := by
  refine ⟨List.take_append_drop _ _, ?_, ?_⟩
  · show (d.data.take ⌊f * (d.data.length : ℚ)⌋₊).length = _
    rw [List.length_take]
    have hle : ⌊f * (d.data.length : ℚ)⌋₊ ≤ d.data.length := by
      have hmul : f * (d.data.length : ℚ) ≤ (d.data.length : ℚ) := by
        nlinarith [Nat.cast_nonneg (α := ℚ) d.data.length]
      calc ⌊f * (d.data.length : ℚ)⌋₊ ≤ ⌊((d.data.length : ℕ) : ℚ)⌋₊ :=
          Nat.floor_le_floor hmul
        _ = d.data.length := Nat.floor_natCast _
    exact min_eq_left hle
  · show (d.data.take _).length + (d.data.drop _).length = _
    rw [List.length_take, List.length_drop]
    omega

/-- Witness for C6 at fraction one half on a concrete three-row dataset. -/
theorem partition_spec_witness :
    (exD3.partition (1/2)).1.data ++ (exD3.partition (1/2)).2.data = exD3.data ∧
    (exD3.partition (1/2)).1.data.length = ⌊(1/2 : ℚ) * (exD3.data.length : ℚ)⌋₊ ∧
    (exD3.partition (1/2)).1.data.length + (exD3.partition (1/2)).2.data.length
      = exD3.data.length :=
  partition_spec exD3 (1/2) (by norm_num) (by norm_num)

/-! ### Z-score normalization (`DataSet.normalize_z_score`)

Normalization is applied in the pipeline after `convert_to_float`, so it is
modelled on all-numeric data: a 2D list of reals. -/

/-- The values of one column, as read by the per-column loops
(`row[col]` for each row). -/
def colVals (d : List (List ℝ)) (c : ℕ) : List ℝ := d.map (fun r => r.getD c 0)

/-- The column mean computed by `normalize_z_score`: column sum divided by
the number of rows. -/
noncomputable def colMean (d : List (List ℝ)) (c : ℕ) : ℝ :=
  (colVals d c).sum / (d.length : ℝ)

/-- The sum of squared deviations `(mean - row[col])**2` computed by
`normalize_z_score`. -/
noncomputable def colSSD (d : List (List ℝ)) (c : ℕ) : ℝ :=
  ((colVals d c).map (fun x => (colMean d c - x) ^ 2)).sum

/-- The "standard deviation" computed by `normalize_z_score`: the square
root of the sum of squared deviations (not divided by `n`). -/
noncomputable def colStd (d : List (List ℝ)) (c : ℕ) : ℝ :=
  Real.sqrt (colSSD d c)

/-- The per-value replacement: `0` when the standard deviation is zero,
otherwise `(x - mean) / std`. -/
noncomputable def zScoreVal (std mean x : ℝ) : ℝ :=
  if std ≠ 0 then (x - mean) / std else 0

/-- One iteration of the column loop of `normalize_z_score`: compute the
column statistics, then replace each row's value in that column. -/
noncomputable def normalizeCol (d : List (List ℝ)) (c : ℕ) : List (List ℝ) :=
  d.map (fun r => r.set c (zScoreVal (colStd d c) (colMean d c) (r.getD c 0)))

/-- `DataSet.normalize_z_score`: normalize the listed columns in order. -/
noncomputable def normalize_z_score (d : List (List ℝ)) (cols : List ℕ) :
    List (List ℝ) :=
  cols.foldl normalizeCol d

theorem getD_set_eq_ite {α : Type} (l : List α) (i j : ℕ) (a y : α)
    (hj : j < l.length) :
    (l.set i a).getD j y = if i = j then a else l.getD j y := by
  rw [List.getD_eq_getElem _ _ (by rw [List.length_set]; exact hj),
    List.getElem_set]
  by_cases h : i = j
  · simp [h]
  · rw [if_neg h, if_neg h, List.getD_eq_getElem _ _ hj]

theorem getD_set_ne {α : Type} (l : List α) (i j : ℕ) (a y : α) (h : i ≠ j) :
    (l.set i a).getD j y = l.getD j y := by
  rw [List.getD_eq_getElem?_getD, List.getElem?_set_ne h,
    ← List.getD_eq_getElem?_getD]

theorem length_normalizeCol (d : List (List ℝ)) (c : ℕ) :
    (normalizeCol d c).length = d.length := by
  simp [normalizeCol]

theorem getD_normalizeCol (d : List (List ℝ)) (c i : ℕ) (hi : i < d.length) :
    (normalizeCol d c).getD i [] =
      (d.getD i []).set c
        (zScoreVal (colStd d c) (colMean d c) ((d.getD i []).getD c 0)) := by
  unfold normalizeCol
  rw [List.getD_eq_getElem _ _ (by simpa using hi), List.getElem_map,
    List.getD_eq_getElem _ _ hi]

theorem colVals_normalizeCol_ne (d : List (List ℝ)) (c c' : ℕ) (h : c' ≠ c) :
    colVals (normalizeCol d c') c = colVals d c := by
  unfold colVals normalizeCol
  rw [List.map_map]
  apply List.map_congr_left
  intro r _
  exact getD_set_ne r c' c _ _ h

theorem colMean_normalizeCol_ne (d : List (List ℝ)) (c c' : ℕ) (h : c' ≠ c) :
    colMean (normalizeCol d c') c = colMean d c := by
  unfold colMean
  rw [colVals_normalizeCol_ne d c c' h, length_normalizeCol]

theorem colStd_normalizeCol_ne (d : List (List ℝ)) (c c' : ℕ) (h : c' ≠ c) :
    colStd (normalizeCol d c') c = colStd d c := by
  unfold colStd colSSD
  rw [colVals_normalizeCol_ne d c c' h, colMean_normalizeCol_ne d c c' h]

theorem row_length_normalizeCol (d : List (List ℝ)) (c i : ℕ) (hi : i < d.length) :
    ((normalizeCol d c).getD i []).length = (d.getD i []).length := by
  rw [getD_normalizeCol d c i hi, List.length_set]

theorem entry_normalizeCol_ne (d : List (List ℝ)) (c c' i : ℕ) (h : c' ≠ c)
    (hi : i < d.length) :
    ((normalizeCol d c').getD i []).getD c 0 = (d.getD i []).getD c 0 := by
  rw [getD_normalizeCol d c' i hi]
  exact getD_set_ne _ c' c _ _ h

theorem entry_normalizeCol_self (d : List (List ℝ)) (c i : ℕ) (hi : i < d.length)
    (hc : c < (d.getD i []).length) :
    ((normalizeCol d c).getD i []).getD c 0
      = zScoreVal (colStd d c) (colMean d c) ((d.getD i []).getD c 0) := by
  rw [getD_normalizeCol d c i hi, getD_set_eq_ite _ _ _ _ _ hc, if_pos rfl]

theorem normalize_length (d : List (List ℝ)) (cols : List ℕ) :
    (normalize_z_score d cols).length = d.length := by
  induction cols generalizing d with
  | nil => rfl
  | cons a t ih =>
    show (normalize_z_score (normalizeCol d a) t).length = _
    rw [ih, length_normalizeCol]

theorem normalize_row_length (d : List (List ℝ)) (cols : List ℕ) (i : ℕ)
    (hi : i < d.length) :
    ((normalize_z_score d cols).getD i []).length = (d.getD i []).length := by
  induction cols generalizing d with
  | nil => rfl
  | cons a t ih =>
    show ((normalize_z_score (normalizeCol d a) t).getD i []).length = _
    rw [ih _ (by rw [length_normalizeCol]; exact hi),
      row_length_normalizeCol d a i hi]

theorem normalize_entry_not_mem (d : List (List ℝ)) (cols : List ℕ) (c i : ℕ)
    (hc : c ∉ cols) (hi : i < d.length) :
    ((normalize_z_score d cols).getD i []).getD c 0
      = (d.getD i []).getD c 0 := by
  induction cols generalizing d with
  | nil => rfl
  | cons a t ih =>
    show ((normalize_z_score (normalizeCol d a) t).getD i []).getD c 0 = _
    rw [ih _ (fun h => hc (List.mem_cons_of_mem a h))
        (by rw [length_normalizeCol]; exact hi),
      entry_normalizeCol_ne d c a i
        (fun h => hc (h ▸ List.mem_cons_self a t)) hi]

theorem normalize_entry_mem (d : List (List ℝ)) (cols : List ℕ) (c i : ℕ)
    (hnd : cols.Nodup) (hc : c ∈ cols) (hi : i < d.length)
    (hlen : c < (d.getD i []).length) :
    ((normalize_z_score d cols).getD i []).getD c 0
      = zScoreVal (colStd d c) (colMean d c) ((d.getD i []).getD c 0) := by
  induction cols generalizing d with
  | nil => simp at hc
  | cons a t ih =>
    show ((normalize_z_score (normalizeCol d a) t).getD i []).getD c 0 = _
    by_cases hac : a = c
    · subst hac
      have ht : a ∉ t := (List.nodup_cons.mp hnd).1
      rw [normalize_entry_not_mem (normalizeCol d a) t a i ht
          (by rw [length_normalizeCol]; exact hi),
        entry_normalizeCol_self d a i hi hlen]
    · have hct : c ∈ t := by
        rcases List.mem_cons.mp hc with h | h
        · exact absurd h.symm hac
        · exact h
      rw [ih (normalizeCol d a) ((List.nodup_cons.mp hnd).2) hct
          (by rw [length_normalizeCol]; exact hi)
          (by rw [row_length_normalizeCol d a i hi]; exact hlen),
        colStd_normalizeCol_ne d c a hac, colMean_normalizeCol_ne d c a hac,
        entry_normalizeCol_ne d c a i hac hi]

/-- C5: on a non-empty dataset, `normalize_z_score(cols)` replaces each
value `x` of each listed column by `(x - mean) / std` where `mean` is the
population mean of the column and `std` is the square root of the sum of
squared deviations from the mean (not divided by `n`), and writes `0` to
every value of a column whose `std` is zero. -/
theorem normalize_z_score_spec (d : List (List ℝ)) (cols : List ℕ)
    (hne : d ≠ []) (hnd : cols.Nodup)
    (harity : ∀ r ∈ d, ∀ c ∈ cols, c < r.length) :
    (normalize_z_score d cols).length = d.length ∧
    ∀ c ∈ cols,
      colMean d c = (colVals d c).sum / (d.length : ℝ) ∧
      colStd d c
        = Real.sqrt (((colVals d c).map (fun x => (x - colMean d c) ^ 2)).sum) ∧
      ∀ i, i < d.length →
        ((normalize_z_score d cols).getD i []).getD c 0 =
          (if colStd d c = 0 then 0
           else ((d.getD i []).getD c 0 - colMean d c) / colStd d c) := by
  refine ⟨normalize_length d cols, ?_⟩
  intro c hc
  refine ⟨rfl, ?_, ?_⟩
  · unfold colStd colSSD
    refine congrArg Real.sqrt (congrArg List.sum (List.map_congr_left ?_))
    intro x _
    ring
  · intro i hi
    have hmem : d.getD i [] ∈ d := by
      rw [List.getD_eq_getElem _ _ hi]
      exact List.getElem_mem hi
    rw [normalize_entry_mem d cols c i hnd hc hi (harity _ hmem c hc)]
    unfold zScoreVal
    by_cases h : colStd d c = 0 <;> simp [h]

/-- Witness for C5 on a concrete two-row, one-column dataset. -/
theorem normalize_z_score_spec_witness :
    (normalize_z_score [[(1 : ℝ)], [3]] [0]).length
        = ([[(1 : ℝ)], [3]] : List (List ℝ)).length ∧
    ∀ c ∈ [0],
      colMean [[(1 : ℝ)], [3]] c
        = (colVals [[(1 : ℝ)], [3]] c).sum
            / (([[(1 : ℝ)], [3]] : List (List ℝ)).length : ℝ) ∧
      colStd [[(1 : ℝ)], [3]] c
        = Real.sqrt (((colVals [[(1 : ℝ)], [3]] c).map
            (fun x => (x - colMean [[(1 : ℝ)], [3]] c) ^ 2)).sum) ∧
      ∀ i, i < ([[(1 : ℝ)], [3]] : List (List ℝ)).length →
        ((normalize_z_score [[(1 : ℝ)], [3]] [0]).getD i []).getD c 0 =
          (if colStd [[(1 : ℝ)], [3]] c = 0 then 0
           else ((([[(1 : ℝ)], [3]] : List (List ℝ)).getD i []).getD c 0
              - colMean [[(1 : ℝ)], [3]] c) / colStd [[(1 : ℝ)], [3]] c) :=
  normalize_z_score_spec [[(1 : ℝ)], [3]] [0] (by simp) (by simp)
    (by
      intro r hr c hcm
      rcases List.mem_cons.mp hr with h | h
      · subst h
        rcases List.mem_cons.mp hcm with h2 | h2
        · subst h2; simp
        · simp at h2
      · rcases List.mem_cons.mp h with h3 | h3
        · subst h3
          rcases List.mem_cons.mp hcm with h2 | h2
          · subst h2; simp
          · simp at h2
        · simp at h3)

/-! ### Attribute conversion and the categorical-column classification -/

/-- Python `float(v)`: numeric values unchanged, strings parsed by the
given oracle (the failure case, `ConversionError`, is outside this
claim's scope). -/
def pyFloatVal (parse : String → ℤ) : Value → Value
  | .num x => .num x
  | .str s => .num (parse s)

/-- The row loop of `convert_to_float`: convert the entries whose index is
in `cols`, threading the current index. -/
def convRow (parse : String → ℤ) (cols : List ℕ) : ℕ → Row → Row
  | _, [] => []
  | i, v :: rest =>
    (if i ∈ cols then pyFloatVal parse v else v) :: convRow parse cols (i + 1) rest

/-- `DataSet.convert_to_float` with a parse oracle for string values. -/
def DataSet.convert_to_float (d : DataSet) (parse : String → ℤ) (cols : List ℕ) :
    DataSet :=
  { d with data := d.data.map (convRow parse cols 0) }

theorem convRow_getD (parse : String → ℤ) (cols : List ℕ) :
    ∀ (r : Row) (st j : ℕ), j < r.length →
      (convRow parse cols st r).getD j (.num 0)
        = if st + j ∈ cols then pyFloatVal parse (r.getD j (.num 0))
          else r.getD j (.num 0) := by
  intro r
  induction r with
  | nil => intro st j hj; simp at hj
  | cons v rest ih =>
    intro st j hj
    cases j with
    | zero =>
      show ((if st ∈ cols then pyFloatVal parse v else v) ::
        convRow parse cols (st + 1) rest).getD 0 (.num 0) = _
      rw [List.getD_cons_zero, List.getD_cons_zero, Nat.add_zero]
    | succ k =>
      show ((if st ∈ cols then pyFloatVal parse v else v) ::
        convRow parse cols (st + 1) rest).getD (k + 1) (.num 0) = _
      rw [List.getD_cons_succ, List.getD_cons_succ,
        ih (st + 1) k (by simpa using hj),
        show st + 1 + k = st + (k + 1) from by omega]

/-- A concrete dataset whose single attribute column holds the numeric
string "2" in its only row. -/
def exDStr : DataSet := ⟨[[Value.str "2"]], 0, [0]⟩

/-- C8 fails on the code: `convert_to_float` changes which columns count as
categorical, because `get_str_attr_cols` re-derives the classification from
the first row on every call.  Before conversion column 0 of `exDStr` is
categorical; after converting it in place it is not. -/
theorem str_attr_cols_instability_counterexample :
    exDStr.get_str_attr_cols = [0] ∧
    (exDStr.convert_to_float (fun s => if s = "2" then 2 else 0)
        [0]).get_str_attr_cols = [] ∧
    (exDStr.convert_to_float (fun s => if s = "2" then 2 else 0)
        [0]).get_str_attr_cols ≠ exDStr.get_str_attr_cols := by
  refine ⟨by decide, by decide, by decide⟩

/-- C8 (amended): for every fixed Dataset state the classification used by
`distance` is a deterministic function of that state — a column counts as
categorical exactly when it is an attribute column whose first-row value is
a string — but an in-place conversion (`convert_to_float`) of a column
re-classifies it: afterwards that column no longer counts as
categorical. -/
theorem get_str_attr_cols_characterization (d : DataSet) (hd : d.data ≠ []) :
    (∀ c, c ∈ d.get_str_attr_cols ↔
      c ∈ d.attr_cols ∧ ((d.data.headD []).getD c (.num 0)).isStr = true) ∧
    (∀ parse cols c, c ∈ cols → c < (d.data.headD []).length →
      c ∉ (d.convert_to_float parse cols).get_str_attr_cols) := by
  constructor
  · intro c
    unfold DataSet.get_str_attr_cols
    rw [List.mem_filter]
  · intro parse cols c hc hlt
    unfold DataSet.get_str_attr_cols
    rw [List.mem_filter]
    rintro ⟨hattr, hstr⟩
    have hhead : ((d.convert_to_float parse cols).data.headD [])
        = convRow parse cols 0 (d.data.headD []) := by
      unfold DataSet.convert_to_float
      cases hdata : d.data with
      | nil => exact absurd hdata hd
      | cons r t => rfl
    rw [hhead, convRow_getD parse cols _ 0 c hlt, Nat.zero_add, if_pos hc] at hstr
    cases hv : (d.data.headD []).getD c (.num 0) <;>
      rw [hv] at hstr <;> simp [pyFloatVal, Value.isStr] at hstr

/-- Witness for the amended C8 on the concrete one-row dataset. -/
theorem get_str_attr_cols_characterization_witness :
    (∀ c, c ∈ exDStr.get_str_attr_cols ↔
      c ∈ exDStr.attr_cols ∧
        ((exDStr.data.headD []).getD c (.num 0)).isStr = true) ∧
    (∀ parse cols c, c ∈ cols → c < (exDStr.data.headD []).length →
      c ∉ (exDStr.convert_to_float parse cols).get_str_attr_cols) :=
  get_str_attr_cols_characterization exDStr (by decide)

/-! ### Row-storage sharing across folds

Python rows are mutable list objects; slicing `self.data[a:b]` copies the
outer list but keeps references to the same row objects.  This is modelled
with a row store: datasets hold lists of references (indices into the
store), and `validation_folds` manipulates reference lists exactly as the
generic `validationFolds` above. -/

/-- A reference to a row object. -/
abbrev RowRef := ℕ

/-- Read one row object from the store. -/
def readRow (store : List Row) (r : RowRef) : Row := store.getD r []

/-- The rows a dataset observes through its reference list. -/
def readData (store : List Row) (refs : List RowRef) : List Row :=
  refs.map (readRow store)

/-- C9 fails on the code: with two rows and two folds, fold 0's train list
holds a reference (`1`) to the same row object as the source dataset, so an
in-place mutation of that row — as `normalize_z_score`, `convert_to_float`
or editing would perform through fold 0's training data — changes the rows
the source dataset observes. -/
theorem folds_share_row_storage_counterexample :
    ((validationFolds [0, 1] 2).getD 0 ⟨[], []⟩).train = [1] ∧
    readData ([[Value.str "a"], [Value.str "b"]].set 1 [Value.str "mut"]) [0, 1]
      ≠ readData [[Value.str "a"], [Value.str "b"]] [0, 1] := by
  refine ⟨by decide, by decide⟩

/-- C9 (amended): the fold lists themselves are freshly built (slicing
copies the outer list), but every row reference in a fold's train or test
list is drawn from the source's reference list: folds and source share row
objects, and any row read through a fold's reference is one of the rows the
source observes — so in-place row mutation through a fold is observable in
the source. -/
theorem folds_reference_source_rows (refs : List RowRef) (n : ℕ) (hn : 1 ≤ n) :
    ∀ fd ∈ validationFolds refs n,
      (∀ r ∈ fd.train, r ∈ refs ∧
        ∀ store, readRow store r ∈ readData store refs) ∧
      (∀ r ∈ fd.test, r ∈ refs ∧
        ∀ store, readRow store r ∈ readData store refs) := by
  intro fd hfd
  have hperm := validationFolds_perm refs n hn fd hfd
  constructor
  · intro r hr
    have h1 : r ∈ refs := hperm.mem_iff.mp (List.mem_append_left _ hr)
    exact ⟨h1, fun store => List.mem_map_of_mem (readRow store) h1⟩
  · intro r hr
    have h1 : r ∈ refs := hperm.mem_iff.mp (List.mem_append_right _ hr)
    exact ⟨h1, fun store => List.mem_map_of_mem (readRow store) h1⟩

/-- Witness for the amended C9: reference `1` sits in fold 0's train list
of a two-row source, is one of the source's references, and the row it
reads from a concrete store is among the rows the source observes. -/
theorem folds_reference_source_rows_witness :
    1 ∈ ([0, 1] : List RowRef) ∧
    readRow [[Value.str "a"], [Value.str "b"]] 1
      ∈ readData [[Value.str "a"], [Value.str "b"]] [0, 1] := by
  have h := (folds_reference_source_rows [0, 1] 2 (by decide)
    ⟨[1], [0]⟩ (by decide)).1 1 (by decide)
  exact ⟨h.1, h.2 [[Value.str "a"], [Value.str "b"]]⟩

/-! ### Random sampling (`DataSet.sample`) -/

/-- `DataSet.sample`, with the index draw of Python's `random.sample`
modelled as an oracle: `random.sample` raises `ValueError` when `k`
exceeds the population size, and otherwise returns the elements at `k`
distinct in-range positions (uniformity of the draw is the library's
distributional guarantee, outside this embedding). -/
def DataSet.sample (d : DataSet) (k : ℕ) (pick : List ℕ) : Except String DataSet :=
  if k ≤ d.data.length then
    .ok { d with data := pick.map (fun i => d.data.getD i []) }
  else
    .error "SampleSizeError"

theorem count_eq_positions {α : Type} [DecidableEq α] (l : List α) (y a : α) :
    l.count a = ((List.range l.length).filter (fun i => l.getD i y == a)).length := by
  induction l with
  | nil => rfl
  | cons x t ih =>
    rw [List.count_cons,
      show (x :: t).length = t.length + 1 from rfl, List.range_succ_eq_map,
      List.filter_cons, List.filter_map]
    have hcomp : ((fun i => (x :: t).getD i y == a) ∘ Nat.succ)
        = (fun i => t.getD i y == a) := by
      funext i
      simp [List.getD_cons_succ]
    rw [hcomp]
    by_cases hxa : (x == a) = true
    · rw [if_pos hxa, if_pos (by rw [List.getD_cons_zero]; exact hxa),
        List.length_cons, List.length_map, ih]
    · rw [if_neg hxa, if_neg (by rw [List.getD_cons_zero]; exact hxa),
        List.length_map, ih, Nat.add_zero]

theorem count_map_getD {α : Type} [DecidableEq α] (l : List α) (y a : α) :
    ∀ pick : List ℕ,
      (pick.map (fun i => l.getD i y)).count a
        = (pick.filter (fun i => l.getD i y == a)).length := by
  intro pick
  induction pick with
  | nil => rfl
  | cons p ps ih =>
    rw [List.map_cons, List.count_cons, ih, List.filter_cons]
    by_cases h : (l.getD p y == a) = true
    · rw [if_pos h, if_pos h, List.length_cons]
    · rw [if_neg h, if_neg h, Nat.add_zero]

/-- Distinct in-range positions select a sub-multiset of the list: the
without-replacement property of a valid sample draw. -/
theorem map_getD_subperm {α : Type} [DecidableEq α] (l : List α) (y : α)
    (pick : List ℕ) (hnd : pick.Nodup) (hbd : ∀ i ∈ pick, i < l.length) :
    ((pick.map (fun i => l.getD i y) : List α) : Multiset α) ≤ (l : Multiset α) := by
  rw [Multiset.le_iff_count]
  intro a
  rw [Multiset.coe_count, Multiset.coe_count, count_map_getD l y a pick,
    count_eq_positions l y a]
  apply List.Subperm.length_le
  apply List.subperm_of_subset (hnd.filter _)
  intro i hi
  rw [List.mem_filter] at hi
  rw [List.mem_filter]
  exact ⟨List.mem_range.mpr (hbd i hi.1), hi.2⟩

/-- C10: `sample(k)` fails with the SampleSizeError condition when `k`
exceeds the row count; otherwise, for the index draw `random.sample`
produces (`k` distinct in-range positions), it succeeds and replaces the
rows with exactly `k` rows drawn without replacement (a sub-multiset of the
original rows), leaving the column metadata unchanged. -/
theorem sample_spec (d : DataSet) (k : ℕ) (pick : List ℕ)
    (hvalid : k ≤ d.data.length →
      pick.length = k ∧ pick.Nodup ∧ ∀ i ∈ pick, i < d.data.length) :
    (k ≤ d.data.length →
      ∃ d2, d.sample k pick = .ok d2 ∧ d2.data.length = k ∧
        (d2.data : Multiset Row) ≤ (d.data : Multiset Row) ∧
        d2.class_col = d.class_col ∧ d2.attr_cols = d.attr_cols) ∧
    (d.data.length < k → d.sample k pick = .error "SampleSizeError") := by
  constructor
  · intro hk
    obtain ⟨h1, h2, h3⟩ := hvalid hk
    refine ⟨{ d with data := pick.map (fun i => d.data.getD i []) },
      ?_, ?_, ?_, rfl, rfl⟩
    · unfold DataSet.sample
      rw [if_pos hk]
    · show (pick.map (fun i => d.data.getD i [])).length = k
      rw [List.length_map, h1]
    · exact map_getD_subperm d.data [] pick h2 h3
  · intro hk
    unfold DataSet.sample
    rw [if_neg (by omega)]

/-- Witness for C10 sampling two of the three rows of `exD3`. -/
theorem sample_spec_witness :
    (2 ≤ exD3.data.length →
      ∃ d2, exD3.sample 2 [0, 2] = .ok d2 ∧ d2.data.length = 2 ∧
        (d2.data : Multiset Row) ≤ (exD3.data : Multiset Row) ∧
        d2.class_col = exD3.class_col ∧ d2.attr_cols = exD3.attr_cols) ∧
    (exD3.data.length < 2 → exD3.sample 2 [0, 2] = .error "SampleSizeError") :=
  sample_spec exD3 2 [0, 2] (fun _ => ⟨by decide, by decide, by decide⟩)

/-! ### Edited k-NN (`EditedKNN.edit_training_data`) -/

/-- `EditedKNN.edit_training_data` as implemented in `edited_knn.py`: the
method body is the bare string expression `'empty'`, so constructing an
`EditedKNN` leaves the training data unchanged. -/
def edit_training_data (training : List Row) : List Row := training

/-- Stable insertion into a list sorted by squared distance: the new pair
goes before every pair whose key is not smaller, so earlier rows win
ties. -/
def insertByDist (p : ℤ × Row) : List (ℤ × Row) → List (ℤ × Row)
  | [] => [p]
  | q :: rest => if q.1 < p.1 then q :: insertByDist p rest else p :: q :: rest

/-- Stable sort by squared distance (insertion sort). -/
def sortByDist : List (ℤ × Row) → List (ℤ × Row)
  | [] => []
  | p :: rest => insertByDist p (sortByDist rest)

/-- Modelled from the spec: the k-NN neighbor selection of §4.3 (the
source file `knn.py` is not among the sources): order the reference rows
by distance to the query — stably, so that ties are broken by original
order — and keep the `k` nearest.  Rows are ordered by the squared
distance `sumSqDist`, which induces the same order as the spec's metric
`sqrt (sumSqDist ..)` because the square root is monotone. -/
def specKnnSelect (d : DataSet) (train : List Row) (k : ℕ) (q : Row) : List Row :=
  ((sortByDist (train.map (fun r => (d.sumSqDist q r, r)))).take k).map (fun p => p.2)

/-- Modelled from the spec: plurality vote with ties between classes broken
by the first-encountered class in neighbor order (§4.3). -/
def pluralityVote (classes : List Value) : Option Value :=
  classes.foldl (fun best c =>
    match best with
    | none => some c
    | some b => if classes.count c > classes.count b then some c else some b) none

/-- Modelled from the spec: the class the k-NN predictor returns for a
query row (§4.3). -/
def specKnnPredict (d : DataSet) (train : List Row) (k : ℕ) (q : Row) : Option Value :=
  pluralityVote ((specKnnSelect d train k q).map (fun r => r.getD d.class_col (.num 0)))

/-- Modelled from the spec: one Wilson editing pass (§4.4): classify each
retained row by a k-NN vote over the retained set excluding that row, and
remove the rows whose predicted class differs from their own class at the
end of the pass. -/
def wilsonPass (d : DataSet) (k : ℕ) (retained : List Row) : List Row :=
  ((List.range retained.length).filter (fun i =>
    specKnnPredict d (retained.eraseIdx i) k (retained.getD i [])
      = some ((retained.getD i []).getD d.class_col (.num 0)))).map
    (fun i => retained.getD i [])

/-- Modelled from the spec: repeat Wilson passes until a pass removes
nothing, no rows remain, or the iteration cap is exhausted (§4.4). -/
def wilsonEdit (d : DataSet) (k : ℕ) : ℕ → List Row → List Row
  | 0, retained => retained
  | cap + 1, retained =>
    let next := wilsonPass d k retained
    if next.length = retained.length then retained
    else if next.isEmpty then next
    else wilsonEdit d k cap next

/-- A training set with two consistent rows of class "A" and one outlier of
class "B" whose nearest neighbor has class "A". -/
def exTrainOutlier : List Row :=
  [[Value.num 0, Value.str "A"], [Value.num 1, Value.str "A"],
   [Value.num 10, Value.str "B"]]

/-- The training DataSet of the outlier example: attribute column 0,
class column 1. -/
def exDEdit : DataSet := ⟨exTrainOutlier, 1, [0]⟩

/-- C4 (code bug): the implemented `edit_training_data` retains every
training row — its body is the bare string `'empty'`, although the
method's own comment says it changes `self.training_data` — while Wilson
editing as specified removes the outlier row `(10, "B")` from this
training set with `k = 1` and leaves the edited set different from the
full one. -/
theorem edited_knn_stub_divergence :
    edit_training_data exTrainOutlier = exTrainOutlier ∧
    wilsonEdit exDEdit 1 10 exTrainOutlier
      = [[Value.num 0, Value.str "A"], [Value.num 1, Value.str "A"]] ∧
    wilsonEdit exDEdit 1 10 exTrainOutlier ≠ edit_training_data exTrainOutlier := by
  refine ⟨rfl, by decide, by decide⟩

end MLNN
